import Mathlib

/-!
Verification development for the CollegeDekho stream-wise sessions
aggregator (src/app.py).  The Python source is shallowly embedded here:
strings are modelled as `List Char` (matching Lean 4.14 `String.data`),
pandas DataFrames as column-name lists plus association-list rows, and
fallible Python code (exceptions) as `Except`.  Definitions follow the
source line by line; pandas behaviours that the source relies on
(left-merge semantics, `pivot_table` dropping null group keys and sorting
group keys, outer index-merge taking the sorted union of keys,
`DataFrame.empty`) are modelled per the pandas documentation.
-/

deriving instance DecidableEq for Except

namespace CollegeDekho

/-! Character-list primitives used to model Python `str` operations.
`leadMatch pat l` is true when `pat` occurs at the front of `l`. -/

def leadMatch : List Char → List Char → Bool
  | [], _ => true
  | _ :: _, [] => false
  | a :: as, b :: bs => a = b && leadMatch as bs

/-- Python `pat in s` (substring containment). -/
def hasSub (pat : List Char) : List Char → Bool
  | [] => leadMatch pat []
  | c :: cs => leadMatch pat (c :: cs) || hasSub pat cs

/-- Python `ch in s` for a single character. -/
def hasCh (ch : Char) : List Char → Bool
  | [] => false
  | c :: cs => c = ch || hasCh ch cs

/-- Python `str.replace(pat, rep)` for a nonempty `pat`: replace every
non-overlapping occurrence, scanning left to right.  `fuel` bounds the
recursion; callers pass the list length, which always suffices because
every step consumes at least one input character.  (Python's behaviour
for an empty pattern differs, but `clean_url` only replaces nonempty
patterns.) -/
def replaceAllF (pat rep : List Char) : Nat → List Char → List Char
  | _, [] => []
  | 0, l => l
  | fuel + 1, c :: cs =>
    if leadMatch pat (c :: cs) then
      rep ++ replaceAllF pat rep fuel (List.drop (pat.length - 1) cs)
    else
      c :: replaceAllF pat rep fuel cs

def replaceAll (pat rep l : List Char) : List Char :=
  replaceAllF pat rep l.length l

/-- The part of `l` before the first occurrence of `pat`
(Python `s.split(pat)[0]` when `pat` occurs in `s`). -/
def beforeFirst (pat : List Char) : List Char → List Char
  | [] => []
  | c :: cs => if leadMatch pat (c :: cs) then [] else c :: beforeFirst pat cs

/-- Python `s.split(pat)[0]` guarded by `pat in s`, as in `clean_url`. -/
def truncAt (pat : List Char) (l : List Char) : List Char :=
  if hasSub pat l then beforeFirst pat l else l

/-- The part of `l` before the first occurrence of `ch`. -/
def beforeChar (ch : Char) : List Char → List Char
  | [] => []
  | c :: cs => if c = ch then [] else c :: beforeChar ch cs

/-- The part of `l` after the first occurrence of `ch` (callers guard on
`hasCh`, so the `[]` fallback for a missing `ch` is never reached). -/
def afterChar (ch : Char) : List Char → List Char
  | [] => []
  | c :: cs => if c = ch then cs else afterChar ch cs

/-! Model of the fragment of `urllib.parse.urlparse` that `clean_url`
uses: the `.path` component.  Mirrors CPython `urlsplit`/`urlparse`:
scheme removal, netloc removal after a leading `//` (with the
"Invalid IPv6 URL" `ValueError` on an unmatched bracket in the netloc),
fragment and query splitting, and — only when the parsed scheme lies in
`uses_params` — parameter splitting on the last path segment.
CPython's authority branch carries further, version-dependent
`ValueError`s that are not modelled (the NFKC rejection of
`_checknetloc`, the 3.11+ bracketed-host validation); accordingly, the
theorems below assert about failures only that they lie on the
authority branch (a leading `//` after scheme removal), never that the
modelled unmatched-bracket error is the only failure, and every
concrete evaluation keeps its netloc all-ASCII and bracket-free, where
the model is exact.  The control-character sanitisation of newer
CPython is likewise not modelled; no such character occurs in any input
considered here. -/

/-- CPython `scheme_chars`: ASCII letters, digits, `+`, `-`, `.`. -/
def schemeChar (c : Char) : Bool :=
  c.isAlphanum || c = '+' || c = '-' || c = '.'

/-- A valid scheme before the first colon: nonempty, leading ASCII
letter, all characters in `scheme_chars`. -/
def validScheme : List Char → Bool
  | [] => false
  | c :: cs => c.isAlpha && (c :: cs).all schemeChar

/-- Drop `scheme:` from the front when present, as CPython `urlsplit`
does (`i = url.find(':'); if i > 0 and url[0].isalpha() ...`). -/
def schemeSplit (l : List Char) : List Char :=
  if hasCh ':' l && validScheme (beforeChar ':' l) then afterChar ':' l else l

/-- CPython `uses_params`: the schemes for which `urlparse` splits
parameters off the path (`if scheme in uses_params and ';' in url`). -/
def uses_params : List String :=
  ["", "ftp", "hdl", "prospero", "http", "imap", "https", "shttp", "rtsp",
   "rtspu", "sip", "sips", "mms", "sftp", "tel"]

/-- The scheme `urlsplit` reports: the lower-cased prefix before the
first colon when the scheme test passes, else the empty default. -/
def parsedScheme (l : List Char) : List Char :=
  if hasCh ':' l && validScheme (beforeChar ':' l) then
    (beforeChar ':' l).map Char.toLower
  else []

/-- `scheme in uses_params`: the guard of `urlparse`'s parameter
splitting. -/
def usesParams (l : List Char) : Bool :=
  uses_params.any (fun s => parsedScheme l == s.data)

/-- Split the netloc (after a leading `//`): the netloc runs until the
first `/`, `?` or `#`, which itself stays in the remainder. -/
def spanNetloc : List Char → List Char × List Char
  | [] => ([], [])
  | c :: cs =>
    if c = '/' || c = '?' || c = '#' then ([], c :: cs)
    else
      let p := spanNetloc cs
      (c :: p.1, p.2)

/-- CPython's unmatched-bracket check on the netloc, which raises
`ValueError("Invalid IPv6 URL")`. -/
def bracketBad (nl : List Char) : Bool :=
  (hasCh '[' nl && !hasCh ']' nl) || (hasCh ']' nl && !hasCh '[' nl)

/-- Suffix of `l` strictly after its last `/` (all of `l` when it has
no `/`). -/
def afterLastSlash : List Char → List Char
  | [] => []
  | c :: cs =>
    if hasCh '/' cs then afterLastSlash cs
    else if c = '/' then cs else c :: cs

/-- CPython `_splitparams(url)[0]`: when the path has a `/`, cut at the
first `;` at or after the last `/`; otherwise cut at the first `;`. -/
def splitparams : List Char → List Char
  | [] => []
  | c :: cs =>
    if hasCh '/' cs then c :: splitparams cs
    else if c = '/' then c :: beforeChar ';' cs
    else beforeChar ';' (c :: cs)

/-- Fragment and query splitting on the post-netloc rest, then
parameter splitting when `up` (the `uses_params` guard) holds, yielding
`urlparse(...).path`. -/
def pathOfRest (up : Bool) (l : List Char) : List Char :=
  let l2 := if hasCh '#' l then beforeChar '#' l else l
  let l3 := if hasCh '?' l2 then beforeChar '?' l2 else l2
  if up && hasCh ';' l3 then splitparams l3 else l3

/-- `urlparse(s).path`, or the `ValueError` message `urlparse` raises. -/
def urlPathE (l : List Char) : Except String (List Char) :=
  let l1 := schemeSplit l
  if leadMatch ['/', '/'] l1 then
    let nl := (spanNetloc (l1.drop 2)).1
    if bracketBad nl then Except.error "Invalid IPv6 URL"
    else Except.ok (pathOfRest (usesParams l) (spanNetloc (l1.drop 2)).2)
  else Except.ok (pathOfRest (usesParams l) l1)

/-- Python `s.lstrip("/")`. -/
def lstripSlashes : List Char → List Char
  | [] => []
  | c :: cs => if c = '/' then lstripSlashes cs else c :: cs

/-- The `unwanted_terms` list of `clean_url`, in source order. -/
def unwanted_terms : List String :=
  ["-courses", "-pictures", "-admission", "-connect", "-campus",
   "-placement", "-reviews", "-scholarship",
   "/reviews", "/cut-off", "/courses_fees", "/pictures", "/admission",
   "/campus"]

/-- `clean_url` from src/app.py: strip the listing segments, remove the
unwanted terms, truncate at `-dpid` / `-dp` / `-cpd`, then return the
parsed path with leading slashes stripped.  `urlparse` can raise, so the
result is `Except` with the exception message on the error side. -/
def clean_url (url : String) : Except String String :=
  let s1 := replaceAll "/college/".data [] (replaceAll "/colleges/".data [] url.data)
  let s2 := unwanted_terms.foldl (fun acc t => replaceAll t.data [] acc) s1
  let s3 := truncAt "-dpid".data s2
  let s4 := truncAt "-dp".data s3
  let s5 := truncAt "-cpd".data s4
  match urlPathE s5 with
  | Except.ok p => Except.ok ⟨lstripSlashes p⟩
  | Except.error e => Except.error e

inductive Cell
  | null : Cell
  | num : Int → Cell
  | str : String → Cell
deriving DecidableEq

abbrev Row := List (String × Cell)

structure Table where
  cols : List String
  rows : List Row
deriving DecidableEq

def rowGet : Row → String → Option Cell
  | [], _ => none
  | (c, v) :: r, k => if c = k then some v else rowGet r k

/-- pandas column assignment `df[c] = ...` at row level: replace the
existing entry in place or append a new column at the end. -/
def setCell : Row → String → Cell → Row
  | [], k, v => [(k, v)]
  | (c, w) :: r, k, v => if c = k then (k, v) :: r else (c, w) :: setCell r k v

def setColName (cols : List String) (k : String) : List String :=
  if cols.contains k then cols else cols ++ [k]

/-- Python `str.lower()` on a column name (ASCII range, as in the
source data; `Char.toLower` only lower-cases ASCII). -/
def lowerStr (s : String) : String := ⟨s.data.map Char.toLower⟩

/-- `normalize_columns` from src/app.py: lower-case all column names. -/
def normalize_columns (t : Table) : Table :=
  { cols := t.cols.map lowerStr,
    rows := t.rows.map (fun r => r.map (fun p => (lowerStr p.1, p.2))) }

/-- Order on cells used to model pandas sorting group keys and outer
merges by key; within the stream labels of one run the keys are
homogeneous, so only the string/string and number/number cases are
exercised. -/
def cellRank : Cell → Nat
  | Cell.null => 0
  | Cell.num _ => 1
  | Cell.str _ => 2

/-- Lexicographic code-point order on strings (Python `<` on `str`). -/
def lexLt : List Char → List Char → Bool
  | [], [] => false
  | [], _ :: _ => true
  | _ :: _, [] => false
  | a :: as, b :: bs => a.toNat < b.toNat || (a = b && lexLt as bs)

def cellLeB : Cell → Cell → Bool
  | Cell.num m, Cell.num n => m ≤ n
  | Cell.str s, Cell.str t => !lexLt t.data s.data
  | a, b => cellRank a ≤ cellRank b

def cellLe (a b : Cell) : Prop := cellLeB a b = true

instance : DecidableRel cellLe :=
  fun a b => inferInstanceAs (Decidable (cellLeB a b = true))

/-- Unique keys in ascending order: pandas `groupby(sort=True)` (the
`pivot_table` default) and the key union of an outer merge. -/
def sortKeys (l : List Cell) : List Cell :=
  List.insertionSort cellLe l.dedup

/-- Group key of a merged row for `pivot_table(index='stream', ...)`:
pandas `groupby` drops NaN group keys, so a null or absent stream yields
no group. -/
def pKey (r : Row) : Option Cell :=
  match rowGet r "stream" with
  | some Cell.null => none
  | some c => some c
  | none => none

/-- Numeric value of a cell under summation; NaN contributes nothing,
matching pandas `sum` skipping NaN. -/
def cellNum : Cell → Int
  | Cell.num n => n
  | _ => 0

def sessOf (r : Row) : Int :=
  cellNum ((rowGet r "sessions").getD Cell.null)

/-- Result-table model: a DataFrame indexed by `stream`; each row is the
index key plus the cells of the named value columns. -/
structure RTable where
  cols : List String
  rows : List (Cell × List Cell)
deriving DecidableEq

/-- Sum of `sessions` over the rows of `t` whose stream group key is
`k`. -/
def sumFor (t : Table) (k : Cell) : Int :=
  ((t.rows.filter (fun r => pKey r == some k)).map sessOf).sum

/-- `mrgdf.pivot_table(index='stream', values='sessions',
aggfunc='sum')`: one row per distinct non-null stream key, sorted, with
the per-group sessions sum. -/
def pivot_table (t : Table) : RTable :=
  { cols := ["sessions"],
    rows := (sortKeys (t.rows.filterMap pKey)).map
      (fun k => (k, [Cell.num (sumFor t k)])) }

/-- Key comparison for pandas `merge`: NaN keys never match. -/
def keyMatch (a b : Cell) : Bool := !(a == Cell.null) && a == b

/-- pandas `merge` suffix rule for a left column overlapping a non-key
right column. -/
def renameLName (key : String) (rcols : List String) (c : String) : String :=
  if c != key && rcols.contains c then c ++ "_x" else c

/-- pandas `merge` suffix rule for a (non-key) right column overlapping
a left column. -/
def renameRName (lcols : List String) (c : String) : String :=
  if lcols.contains c then c ++ "_y" else c

def mergedCols (l r : Table) (key : String) : List String :=
  l.cols.map (renameLName key r.cols) ++
    (r.cols.filter (fun c => c != key)).map (renameRName l.cols)

def renameLRow (key : String) (rcols : List String) (r : Row) : Row :=
  r.map (fun p => (renameLName key rcols p.1, p.2))

def renameRRow (key : String) (lcols : List String) : Row → Row
  | [] => []
  | (c, v) :: r =>
    if c = key then renameRRow key lcols r
    else (renameRName lcols c, v) :: renameRRow key lcols r

/-- The null-filled right side attached to a left row with no match. -/
def nullRight (lcols : List String) (key : String) : List String → Row
  | [] => []
  | c :: cs =>
    if c = key then nullRight lcols key cs
    else (renameRName lcols c, Cell.null) :: nullRight lcols key cs

/-- `pd.merge(df1, df2, on='cleaned_url', how='left')`: every left row
is kept in order; a left row joins to every right row carrying an equal
non-null key, or to a null-filled right side when none matches. -/
def mergeLeft (l r : Table) (key : String) : Table :=
  { cols := mergedCols l r key,
    rows := l.rows.flatMap (fun lr =>
      let ms := r.rows.filter (fun rr =>
        keyMatch ((rowGet rr key).getD Cell.null) ((rowGet lr key).getD Cell.null))
      if ms.isEmpty then [renameLRow key r.cols lr ++ nullRight l.cols key r.cols]
      else ms.map (fun rr => renameLRow key r.cols lr ++ renameRRow key l.cols rr)) }

/-- Python exceptions raised by `process_and_aggregate_data`. -/
inductive PErr
  | valueError : String → PErr
  | attributeError : PErr
  | indexError : PErr
deriving DecidableEq

/-- `df1['url'].apply(clean_url)` on one cell: a non-string cell (NaN
included) makes Python's `.replace` raise AttributeError, and the
`urlparse` ValueError propagates. -/
def cleanCellE : Option Cell → Except PErr Cell
  | some (Cell.str s) =>
    match clean_url s with
    | Except.ok t => Except.ok (Cell.str t)
    | Except.error e => Except.error (PErr.valueError e)
  | _ => Except.error PErr.attributeError

/-- `df1['cleaned_url'] = df1['url'].apply(clean_url)` (line 56). -/
def addCleanedUrl (t : Table) : Except PErr Table := do
  let rows ← t.rows.mapM (fun r => do
    let c ← cleanCellE (rowGet r "url")
    pure (setCell r "cleaned_url" c))
  pure { cols := setColName t.cols "cleaned_url", rows := rows }

/-- A single-quote character, used to build the error messages of the
source without a bare quote character in this file. -/
def sq : String := ⟨[Char.ofNat 39]⟩

def inputColsMsg (nm : String) : String :=
  "Missing required columns " ++ sq ++ "url" ++ sq ++ " or " ++ sq ++
    "sessions" ++ sq ++ " in input file " ++ nm

def mapperColMsg (nm : String) : String :=
  "Column " ++ sq ++ "cleaned_url" ++ sq ++ " not found in mapper file " ++ nm

def streamColMsg (nm : String) : String :=
  "Column " ++ sq ++ "stream" ++ sq ++ " not found after merging in input file " ++ nm

/-- An uploaded Excel source: reading it is modelled as returning its
table (spreadsheet I/O is an external adapter per the spec); `name`
models the `.name` attribute used in the error messages. -/
structure XFile where
  name : String
  table : Table
deriving DecidableEq

def custom_column_names : List String :=
  ["This_week_2024_Total_session", "Last_week_2024_Total_session",
   "This_week_2023_Total_session"]

/-- One iteration of the `for idx, input_file in enumerate(...)` loop of
`process_and_aggregate_data`, in source order: read and normalise the
period file, check `url`/`sessions`, compute `cleaned_url`, read and
normalise the mapper file (line 59 — the read happens inside the loop;
the second component counts it), check `cleaned_url`, left-merge, check
`stream`, pivot, and rename the single value column to
`custom_column_names[idx]` (an IndexError when `idx` is out of range). -/
def processFile (mapper : XFile) (idx : Nat) (f : XFile) : Except PErr RTable × Nat :=
  let df1 := normalize_columns f.table
  if ¬ (df1.cols.contains "url" ∧ df1.cols.contains "sessions") then
    (Except.error (PErr.valueError (inputColsMsg f.name)), 0)
  else
    match addCleanedUrl df1 with
    | Except.error e => (Except.error e, 0)
    | Except.ok d =>
      let df2 := normalize_columns mapper.table
      if ¬ df2.cols.contains "cleaned_url" then
        (Except.error (PErr.valueError (mapperColMsg mapper.name)), 1)
      else
        let mrgdf := mergeLeft d df2 "cleaned_url"
        if ¬ mrgdf.cols.contains "stream" then
          (Except.error (PErr.valueError (streamColMsg f.name)), 1)
        else
          let result := pivot_table mrgdf
          match custom_column_names.get? idx with
          | none => (Except.error PErr.indexError, 1)
          | some nm => (Except.ok { cols := [nm], rows := result.rows }, 1)

/-- pandas `DataFrame.empty`: true when either axis has length 0. -/
def RTable.isEmpty (t : RTable) : Bool := t.rows.isEmpty || t.cols.isEmpty

def rIndex (t : RTable) : List Cell := t.rows.map Prod.fst

/-- Row of `t` at index key `k`, null-filled when `k` is absent. -/
def rFind (t : RTable) (k : Cell) : List Cell :=
  match t.rows.find? (fun p => p.1 == k) with
  | some p => p.2
  | none => t.cols.map (fun _ => Cell.null)

/-- `final_result.merge(result, left_index=True, right_index=True,
how='outer')`: the sorted union of the two indexes (pandas sorts keys on
an outer merge), left columns then right columns, null-filled where a
key is missing on one side. -/
def mergeOuter (a b : RTable) : RTable :=
  { cols := a.cols ++ b.cols,
    rows := (sortKeys (rIndex a ++ rIndex b)).map
      (fun k => (k, rFind a k ++ rFind b k)) }

/-- Result of one run: the returned table or the raised exception, plus
how many times the mapper source was read. -/
structure RunOut where
  result : Except PErr RTable
  mapperReads : Nat
deriving DecidableEq

def runAux (mapper : XFile) : List XFile → Nat → RTable → Nat → RunOut
  | [], _, acc, reads => { result := Except.ok acc, mapperReads := reads }
  | f :: fs, idx, acc, reads =>
    match processFile mapper idx f with
    | (Except.error e, rd) => { result := Except.error e, mapperReads := reads + rd }
    | (Except.ok result, rd) =>
      let acc2 := if acc.isEmpty then result else mergeOuter acc result
      runAux mapper fs (idx + 1) acc2 (reads + rd)

/-- `process_and_aggregate_data(input_url_files, mapper_file,
website_type)` from src/app.py.  `website_type` is a parameter of the
source function that is never used in its body.  The accumulator starts
as `pd.DataFrame()` (both axes empty); each loop iteration replaces an
empty accumulator by the period result and outer-merges into a non-empty
one. -/
def process_and_aggregate_data (input_url_files : List XFile) (mapper_file : XFile)
    (website_type : String) : RunOut :=
  runAux mapper_file input_url_files 0 { cols := [], rows := [] } 0

/-! Concrete tables used by counterexamples and witnesses. -/

def nursingInput : Table :=
  { cols := ["url", "sessions"],
    rows :=
      [[("url", Cell.str "/colleges/nursing-college-abc-dpid123"), ("sessions", Cell.num 7)],
       [("url", Cell.str "/colleges/nursing-college-abc-dpid123"), ("sessions", Cell.num 3)]] }

def nursingMapper : Table :=
  { cols := ["cleaned_url", "stream"],
    rows := [[("cleaned_url", Cell.str "nursing-college-abc"), ("stream", Cell.str "Nursing")]] }

def aInput : Table :=
  { cols := ["url", "sessions"],
    rows := [[("url", Cell.str "/colleges/a-dpid1"), ("sessions", Cell.num 5)],
             [("url", Cell.str "/colleges/b-dpid9"), ("sessions", Cell.num 7)]] }

def abMapper : Table :=
  { cols := ["cleaned_url", "stream"],
    rows := [[("cleaned_url", Cell.str "a"), ("stream", Cell.str "A")]] }

def unmatchedInput : Table :=
  { cols := ["url", "sessions"],
    rows := [[("url", Cell.str "/colleges/b-dpid9"), ("sessions", Cell.num 7)]] }

def matchedInput : Table :=
  { cols := ["url", "sessions"],
    rows := [[("url", Cell.str "/colleges/a-dpid1"), ("sessions", Cell.num 5)]] }

def noSessionsInput : Table :=
  { cols := ["url"], rows := [[("url", Cell.str "/colleges/a-dpid1")]] }

def pivotDemo : Table :=
  { cols := ["stream", "sessions"],
    rows := [[("stream", Cell.str "A"), ("sessions", Cell.num 5)],
             [("stream", Cell.null), ("sessions", Cell.num 7)]] }

/-- A mapper table without a `cleaned_url` column, for the C5 witness. -/
def noKeyMapper : Table :=
  { cols := ["url_map", "stream"], rows := [] }

/-- A mapper table with the join key but no `stream` column, for the C5
witness: the left merge then carries no `stream` column either. -/
def noStreamMapper : Table :=
  { cols := ["cleaned_url"], rows := [] }

/-- `matchedInput` after column normalization and the `cleaned_url`
assignment, used by the C5 witness. -/
def matchedCleaned : Table :=
  { cols := ["url", "sessions", "cleaned_url"],
    rows := [[("url", Cell.str "/colleges/a-dpid1"), ("sessions", Cell.num 5),
              ("cleaned_url", Cell.str "a")]] }

/-- A period file processes cleanly (through column checks, cleaning,
merge and pivot): the loop body at position 0 succeeds on it. -/
def goodFile (mapper f : XFile) : Bool := (processFile mapper 0 f).1.isOk

def rowKeys (r : Row) : List String := r.map Prod.fst

/-- The `cleaned_url` key the pipeline computes for a session row (the
join key of §4.1/§4.3): the cleaned url string, or null when cleaning is
impossible. -/
def cleanKeyOf (r : Row) : Cell :=
  match cleanCellE (rowGet r "url") with
  | Except.ok c => c
  | Except.error _ => Cell.null

/-- The label the mapper assigns to a join key: the stream of the first
mapper row whose non-null `cleaned_url` equals the key, none when no row
matches or the stream there is null/absent. -/
def mapLabel (df2 : Table) (k : Cell) : Option Cell :=
  if k = Cell.null then none
  else
    match df2.rows.find? (fun rr =>
        keyMatch ((rowGet rr "cleaned_url").getD Cell.null) k) with
    | some rr => pKey rr
    | none => none

/-- `aInput` after the `cleaned_url` assignment, used by the C2
witness. -/
def aCleaned : Table :=
  { cols := ["url", "sessions", "cleaned_url"],
    rows :=
      [[("url", Cell.str "/colleges/a-dpid1"), ("sessions", Cell.num 5),
        ("cleaned_url", Cell.str "a")],
       [("url", Cell.str "/colleges/b-dpid9"), ("sessions", Cell.num 7),
        ("cleaned_url", Cell.str "b")]] }

/-- Expected result of a clean two-period run over `matchedInput`,
used by witnesses. -/
def twoRunResult : RTable :=
  { cols := ["This_week_2024_Total_session", "Last_week_2024_Total_session"],
    rows := [(Cell.str "A", [Cell.num 5, Cell.num 5])] }

/-! General lemmas about the embedding. -/

lemma urlPathE_error_msg (l : List Char) (e : String) (h : urlPathE l = Except.error e) :
    e = "Invalid IPv6 URL" := by
  unfold urlPathE at h
  dsimp only at h
  split at h
  · split at h
    · injection h with h2
      exact h2.symm
    · exact Except.noConfusion h
  · exact Except.noConfusion h

/-- Claim C1, counterexample: normalizing the full URL
`https://x.test/colleges/nursing-college-abc-dpid123` does not yield
`nursing-college-abc`.  Removing the substring `/colleges/` glues the
host onto the slug, `urlparse` then reads the whole remainder as the
netloc, and the returned path is empty. -/
theorem c1_counterexample :
    clean_url "https://x.test/colleges/nursing-college-abc-dpid123" = Except.ok "" ∧
    ¬ clean_url "https://x.test/colleges/nursing-college-abc-dpid123" =
        Except.ok "nursing-college-abc" := by decide

/-- Claim C1, amended: with the URL given as the site-relative path
`/colleges/nursing-college-abc-dpid123` (the form the analytics exports
carry), normalization yields `nursing-college-abc`, and with the mapper
entry `nursing-college-abc → Nursing` and two period-1 rows with
sessions 7 and 3 the final table's `Nursing` row holds 10 in the
period-1 column. -/
theorem c1_amended_thm :
    clean_url "/colleges/nursing-college-abc-dpid123" = Except.ok "nursing-college-abc" ∧
    process_and_aggregate_data [⟨"p1.xlsx", nursingInput⟩] ⟨"m.xlsx", nursingMapper⟩
        "CollegeDekho" =
      { result := Except.ok { cols := ["This_week_2024_Total_session"],
                              rows := [(Cell.str "Nursing", [Cell.num 10])] },
        mapperReads := 1 } := by decide

/-- Claim C3, counterexample: a run whose input holds a matched row
(5 sessions, key `a`) and an unmatched row (7 sessions, key `b`, absent
from the mapper) returns a table whose only row is the matched label —
the unmatched row forms no group at all, instead of appearing as a
distinct unmapped group. -/
theorem c3_counterexample :
    (process_and_aggregate_data [⟨"p1.xlsx", aInput⟩] ⟨"m.xlsx", abMapper⟩ "x").result =
      Except.ok { cols := ["This_week_2024_Total_session"],
                  rows := [(Cell.str "A", [Cell.num 5])] } ∧
    clean_url "/colleges/b-dpid9" = Except.ok "b" ∧
    (abMapper.rows.filter (fun r =>
      keyMatch ((rowGet r "cleaned_url").getD Cell.null) (Cell.str "b"))).isEmpty = true := by decide

/-- Claim C4, counterexample: a successful two-period run in which the
first period's aggregate is empty (its only row is unmatched) yields a
table with a single column — the first period's column is dropped when
the empty accumulator is replaced — so the table does not have one
column per processed period. -/
theorem c4_counterexample :
    (process_and_aggregate_data [⟨"p1.xlsx", unmatchedInput⟩, ⟨"p2.xlsx", matchedInput⟩]
        ⟨"m.xlsx", abMapper⟩ "x").result =
      Except.ok { cols := ["Last_week_2024_Total_session"],
                  rows := [(Cell.str "A", [Cell.num 5])] } ∧
    ["Last_week_2024_Total_session"] ≠ custom_column_names.take 2 := by decide

/-- Claim C8, counterexample: a successful two-period run reads the
mapper source twice (once per loop iteration, line 59), not exactly
once. -/
theorem c8_counterexample :
    (process_and_aggregate_data [⟨"p1", matchedInput⟩, ⟨"p2", matchedInput⟩]
        ⟨"m", abMapper⟩ "x").mapperReads = 2 ∧
    (process_and_aggregate_data [⟨"p1", matchedInput⟩, ⟨"p2", matchedInput⟩]
        ⟨"m", abMapper⟩ "x").result.isOk = true ∧
    (2 : Nat) ≠ 1 := by decide

/-- Claim C9, confirmed: the pipeline is deterministic — two runs of
`process_and_aggregate_data` on equal period files, equal mapper file
and equal site selection produce equal outcomes (table, error and read
count alike). -/
theorem c9_thm (files₁ files₂ : List XFile) (mapper₁ mapper₂ : XFile) (w₁ w₂ : String)
    (hf : files₁ = files₂) (hm : mapper₁ = mapper₂) (hw : w₁ = w₂) :
    process_and_aggregate_data files₁ mapper₁ w₁ =
      process_and_aggregate_data files₂ mapper₂ w₂ := by
  subst hf
  subst hm
  subst hw
  rfl

/-- Witness for C9 at a concrete run. -/
theorem c9_witness :
    process_and_aggregate_data [⟨"p1.xlsx", nursingInput⟩] ⟨"m.xlsx", nursingMapper⟩
        "CollegeDekho" =
      process_and_aggregate_data [⟨"p1.xlsx", nursingInput⟩] ⟨"m.xlsx", nursingMapper⟩
        "CollegeDekho" :=
  c9_thm _ _ _ _ _ _ rfl rfl rfl

lemma pKey_ne_null (r : Row) (c : Cell) (h : pKey r = some c) : c ≠ Cell.null := by
  unfold pKey at h
  rcases hs : rowGet r "stream" with _ | cell
  · rw [hs] at h
    simp at h
  · rw [hs] at h
    cases cell with
    | null => simp at h
    | num n =>
      simp only [Option.some.injEq] at h
      rw [← h]
      simp
    | str s =>
      simp only [Option.some.injEq] at h
      rw [← h]
      simp

/-- Claim C3, amended: session rows whose join found no mapper match get
a null stream from the left join and are then silently dropped by the
aggregation (pandas `groupby` drops null keys): the aggregate output
never contains a null-stream group, and such rows appear in no group. -/
theorem c3_amended_thm (t : Table) (p : Cell × List Cell)
    (hp : p ∈ (pivot_table t).rows) : p.1 ≠ Cell.null := by
  unfold pivot_table at hp
  dsimp only at hp
  rcases List.mem_map.1 hp with ⟨k, hk, hkp⟩
  unfold sortKeys at hk
  rw [List.mem_insertionSort, List.mem_dedup] at hk
  rcases List.mem_filterMap.1 hk with ⟨r, _, hr⟩
  rw [← hkp]
  exact pKey_ne_null r k hr

/-- Witness for C3's amended theorem at a concrete merged table. -/
theorem c3_amended_witness :
    (Cell.str "A", [Cell.num 5]) ∈ (pivot_table pivotDemo).rows ∧
    (Cell.str "A", [Cell.num 5]).1 ≠ Cell.null :=
  ⟨by decide, c3_amended_thm pivotDemo _ (by decide)⟩

lemma processFile_cases (mapper : XFile) (idx : Nat) (f : XFile) :
    (processFile mapper idx f).2 = 1 ∨
      ((processFile mapper idx f).2 = 0 ∧ (processFile mapper idx f).1.isOk = false) := by
  unfold processFile
  dsimp only
  split
  · right
    exact ⟨rfl, rfl⟩
  · split
    · right
      exact ⟨rfl, rfl⟩
    · split
      · left
        rfl
      · split
        · left
          rfl
        · split
          · left
            rfl
          · left
            rfl

lemma runAux_reads (mapper : XFile) :
    ∀ (fs : List XFile) (idx : Nat) (acc : RTable) (reads : Nat) (t : RTable),
      (runAux mapper fs idx acc reads).result = Except.ok t →
      (runAux mapper fs idx acc reads).mapperReads = reads + fs.length := by
  intro fs
  induction fs with
  | nil =>
    intro idx acc reads t _
    simp [runAux]
  | cons f rest ih =>
    intro idx acc reads t h
    rcases hp : processFile mapper idx f with ⟨res, rd⟩
    cases res with
    | error e =>
      rw [runAux, hp] at h
      exact absurd h (by simp)
    | ok r =>
      rw [runAux, hp] at h ⊢
      dsimp only at h ⊢
      have hrd : rd = 1 := by
        rcases processFile_cases mapper idx f with h1 | ⟨_, h2⟩
        · rw [hp] at h1
          exact h1
        · rw [hp] at h2
          exact absurd h2 (by simp [Except.isOk, Except.toBool])
      rw [ih _ _ _ t h]
      rw [hrd]
      simp only [List.length_cons]
      omega

/-- Claim C8, amended: within one run the mapper source is read once per
period file that reaches the read (so on every successful run it is read
`files.length` times, not once); every read yields the same table, the
run holding no mutable mapper state between iterations. -/
theorem c8_amended_thm (files : List XFile) (mapper : XFile) (w : String) (t : RTable)
    (h : (process_and_aggregate_data files mapper w).result = Except.ok t) :
    (process_and_aggregate_data files mapper w).mapperReads = files.length := by
  unfold process_and_aggregate_data at h ⊢
  simpa using runAux_reads mapper files 0 { cols := [], rows := [] } 0 t h

/-- Witness for C8's amended theorem at a concrete two-file run. -/
theorem c8_amended_witness :
    (process_and_aggregate_data [⟨"p1", matchedInput⟩, ⟨"p2", matchedInput⟩]
        ⟨"m", abMapper⟩ "x").result =
      Except.ok { cols := ["This_week_2024_Total_session", "Last_week_2024_Total_session"],
                  rows := [(Cell.str "A", [Cell.num 5, Cell.num 5])] } ∧
    (process_and_aggregate_data [⟨"p1", matchedInput⟩, ⟨"p2", matchedInput⟩]
        ⟨"m", abMapper⟩ "x").mapperReads = 2 :=
  ⟨by decide,
   c8_amended_thm [⟨"p1", matchedInput⟩, ⟨"p2", matchedInput⟩] ⟨"m", abMapper⟩ "x"
     { cols := ["This_week_2024_Total_session", "Last_week_2024_Total_session"],
       rows := [(Cell.str "A", [Cell.num 5, Cell.num 5])] } (by decide)⟩

lemma processFile_of_goodFile (mapper f : XFile) (h : goodFile mapper f = true) :
    ∃ rws : List (Cell × List Cell), ∀ idx : Nat,
      processFile mapper idx f =
        ((match custom_column_names.get? idx with
          | some nm => Except.ok { cols := [nm], rows := rws }
          | none => Except.error PErr.indexError), 1) := by
  unfold goodFile at h
  unfold processFile at h
  dsimp only at h
  split at h
  · exact absurd h (by simp [Except.isOk, Except.toBool])
  · rename_i h1
    split at h
    · exact absurd h (by simp [Except.isOk, Except.toBool])
    · rename_i d hd
      split at h
      · exact absurd h (by simp [Except.isOk, Except.toBool])
      · rename_i h2
        split at h
        · exact absurd h (by simp [Except.isOk, Except.toBool])
        · rename_i h3
          refine ⟨(pivot_table (mergeLeft d (normalize_columns mapper.table) "cleaned_url")).rows,
            fun idx => ?_⟩
          unfold processFile
          dsimp only
          rw [if_neg h1, hd]
          dsimp only
          rw [if_neg h2, if_neg h3]
          rcases hg : custom_column_names.get? idx with _ | nm
          · simp only [hg]
          · simp only [hg]

/-- Claim C10, confirmed: the per-period column-name list has exactly
three entries, and a run over four or more period files that all process
cleanly fails with the IndexError from `custom_column_names[3]` instead
of producing a table. -/
theorem c10_thm :
    custom_column_names.length = 3 ∧
    ∀ (mapper : XFile) (w : String) (files : List XFile),
      4 ≤ files.length →
      (∀ f ∈ files.take 4, goodFile mapper f = true) →
      (process_and_aggregate_data files mapper w).result = Except.error PErr.indexError := by
  refine ⟨by decide, ?_⟩
  intro mapper w files h4 hg
  rcases files with _ | ⟨f0, files⟩
  · simp at h4
  rcases files with _ | ⟨f1, files⟩
  · simp at h4
  rcases files with _ | ⟨f2, files⟩
  · simp at h4
  rcases files with _ | ⟨f3, rest⟩
  · simp at h4
  have htake : (f0 :: f1 :: f2 :: f3 :: rest).take 4 = [f0, f1, f2, f3] := rfl
  rw [htake] at hg
  obtain ⟨r0, h0⟩ := processFile_of_goodFile mapper f0 (hg f0 (by simp))
  obtain ⟨r1, h1⟩ := processFile_of_goodFile mapper f1 (hg f1 (by simp))
  obtain ⟨r2, h2⟩ := processFile_of_goodFile mapper f2 (hg f2 (by simp))
  obtain ⟨r3, h3⟩ := processFile_of_goodFile mapper f3 (hg f3 (by simp))
  have e0 : processFile mapper 0 f0 =
      (Except.ok { cols := ["This_week_2024_Total_session"], rows := r0 }, 1) := h0 0
  have e1 : processFile mapper 1 f1 =
      (Except.ok { cols := ["Last_week_2024_Total_session"], rows := r1 }, 1) := h1 1
  have e2 : processFile mapper 2 f2 =
      (Except.ok { cols := ["This_week_2023_Total_session"], rows := r2 }, 1) := h2 2
  have e3 : processFile mapper 3 f3 = (Except.error PErr.indexError, 1) := h3 3
  unfold process_and_aggregate_data
  rw [runAux, e0]
  dsimp only
  rw [runAux, e1]
  dsimp only
  rw [runAux, e2]
  dsimp only
  rw [runAux, e3]

/-- Witness for C10 at a concrete four-file run. -/
theorem c10_witness :
    4 ≤ ([⟨"p1", matchedInput⟩, ⟨"p2", matchedInput⟩, ⟨"p3", matchedInput⟩,
          ⟨"p4", matchedInput⟩] : List XFile).length ∧
    (process_and_aggregate_data
        [⟨"p1", matchedInput⟩, ⟨"p2", matchedInput⟩, ⟨"p3", matchedInput⟩,
         ⟨"p4", matchedInput⟩] ⟨"m", abMapper⟩ "x").result = Except.error PErr.indexError :=
  ⟨by decide,
   c10_thm.2 ⟨"m", abMapper⟩ "x"
     [⟨"p1", matchedInput⟩, ⟨"p2", matchedInput⟩, ⟨"p3", matchedInput⟩, ⟨"p4", matchedInput⟩]
     (by decide) (by decide)⟩

lemma leadMatch_self (l : List Char) : leadMatch l l = true := by
  induction l with
  | nil => rfl
  | cons c cs ih => simp [leadMatch, ih]

lemma hasSub_self (l : List Char) : hasSub l l = true := by
  cases l with
  | nil => rfl
  | cons c cs => simp [hasSub, leadMatch_self]

lemma leadMatch_append (pat l b : List Char) (h : leadMatch pat l = true) :
    leadMatch pat (l ++ b) = true := by
  induction pat generalizing l with
  | nil => rfl
  | cons p ps ih =>
    cases l with
    | nil => exact absurd h (by simp [leadMatch])
    | cons c cs =>
      simp only [List.cons_append, leadMatch, Bool.and_eq_true, decide_eq_true_eq] at h ⊢
      exact ⟨h.1, ih cs h.2⟩

lemma hasSub_append_left (pat a b : List Char) (h : hasSub pat a = true) :
    hasSub pat (a ++ b) = true := by
  induction a with
  | nil =>
    cases pat with
    | nil =>
      cases b with
      | nil => rfl
      | cons x xs => simp [hasSub, leadMatch]
    | cons p ps => exact absurd h (by simp [hasSub, leadMatch])
  | cons c cs ih =>
    simp only [hasSub, Bool.or_eq_true] at h
    rcases h with h | h
    · simp only [List.cons_append, hasSub, Bool.or_eq_true]
      left
      exact leadMatch_append pat (c :: cs) b h
    · simp only [List.cons_append, hasSub, Bool.or_eq_true]
      right
      exact ih h

lemma hasSub_append_right (pat a b : List Char) (h : hasSub pat b = true) :
    hasSub pat (a ++ b) = true := by
  induction a with
  | nil => simpa using h
  | cons c cs ih =>
    simp only [List.cons_append, hasSub, Bool.or_eq_true]
    right
    exact ih

lemma inputColsMsg_contains (nm : String) :
    hasSub "url".data (inputColsMsg nm).data = true ∧
    hasSub "sessions".data (inputColsMsg nm).data = true ∧
    hasSub nm.data (inputColsMsg nm).data = true := by
  unfold inputColsMsg
  refine ⟨?_, ?_, ?_⟩
  · rw [String.data_append]
    exact hasSub_append_left _ _ _ (by decide)
  · rw [String.data_append]
    exact hasSub_append_left _ _ _ (by decide)
  · rw [String.data_append]
    exact hasSub_append_right _ _ _ (hasSub_self _)

lemma mapperColMsg_contains (nm : String) :
    hasSub "cleaned_url".data (mapperColMsg nm).data = true ∧
    hasSub nm.data (mapperColMsg nm).data = true := by
  unfold mapperColMsg
  constructor
  · rw [String.data_append]
    exact hasSub_append_left _ _ _ (by decide)
  · rw [String.data_append]
    exact hasSub_append_right _ _ _ (hasSub_self _)

lemma streamColMsg_contains (nm : String) :
    hasSub "stream".data (streamColMsg nm).data = true ∧
    hasSub nm.data (streamColMsg nm).data = true := by
  unfold streamColMsg
  constructor
  · rw [String.data_append]
    exact hasSub_append_left _ _ _ (by decide)
  · rw [String.data_append]
    exact hasSub_append_right _ _ _ (hasSub_self _)

lemma processFile_inputCols_error (mapper : XFile) (idx : Nat) (f : XFile)
    (hs : ¬ ((normalize_columns f.table).cols.contains "url" = true ∧
             (normalize_columns f.table).cols.contains "sessions" = true)) :
    processFile mapper idx f = (Except.error (PErr.valueError (inputColsMsg f.name)), 0) := by
  unfold processFile
  dsimp only
  rw [if_pos hs]

lemma processFile_mapper_error (mapper : XFile) (idx : Nat) (f : XFile) (d : Table)
    (h1 : (normalize_columns f.table).cols.contains "url" = true ∧
          (normalize_columns f.table).cols.contains "sessions" = true)
    (hd : addCleanedUrl (normalize_columns f.table) = Except.ok d)
    (h2 : ¬ (normalize_columns mapper.table).cols.contains "cleaned_url" = true) :
    processFile mapper idx f =
      (Except.error (PErr.valueError (mapperColMsg mapper.name)), 1) := by
  unfold processFile
  dsimp only
  rw [if_neg (not_not_intro h1), hd]
  dsimp only
  rw [if_pos h2]

lemma processFile_stream_error (mapper : XFile) (idx : Nat) (f : XFile) (d : Table)
    (h1 : (normalize_columns f.table).cols.contains "url" = true ∧
          (normalize_columns f.table).cols.contains "sessions" = true)
    (hd : addCleanedUrl (normalize_columns f.table) = Except.ok d)
    (h2 : (normalize_columns mapper.table).cols.contains "cleaned_url" = true)
    (h3 : ¬ (mergeLeft d (normalize_columns mapper.table) "cleaned_url").cols.contains
        "stream" = true) :
    processFile mapper idx f =
      (Except.error (PErr.valueError (streamColMsg f.name)), 1) := by
  unfold processFile
  dsimp only
  rw [if_neg (not_not_intro h1), hd]
  dsimp only
  rw [if_neg (not_not_intro h2), if_pos h3]

lemma runAux_file_error (mapper : XFile) :
    ∀ (pre : List XFile) (f : XFile) (post : List XFile) (idx : Nat) (acc : RTable)
      (reads : Nat) (e : PErr),
      idx + pre.length ≤ 3 →
      (∀ g ∈ pre, goodFile mapper g = true) →
      (∀ j : Nat, (processFile mapper j f).1 = Except.error e) →
      (runAux mapper (pre ++ f :: post) idx acc reads).result = Except.error e := by
  intro pre
  induction pre with
  | nil =>
    intro f post idx acc reads e _ _ hpf
    rcases hp : processFile mapper idx f with ⟨res, rd⟩
    have h1 := hpf idx
    rw [hp] at h1
    dsimp only at h1
    rw [List.nil_append, runAux, hp, h1]
  | cons g pre ih =>
    intro f post idx acc reads e hlen hg hpf
    have hidx : idx ≤ 2 := by
      simp only [List.length_cons] at hlen
      omega
    obtain ⟨rws, hgf⟩ := processFile_of_goodFile mapper g (hg g (by simp))
    obtain ⟨nm, hnm⟩ : ∃ nm, custom_column_names.get? idx = some nm := by
      interval_cases idx <;> exact ⟨_, rfl⟩
    have eg := hgf idx
    rw [hnm] at eg
    rw [List.cons_append, runAux, eg]
    dsimp only
    exact ih f post (idx + 1) _ _ e
      (by simp only [List.length_cons] at hlen; omega)
      (fun g2 hg2 => hg g2 (by simp [hg2])) hpf

lemma runAux_ok_of_good (mapper : XFile) :
    ∀ (fs : List XFile) (idx : Nat) (acc : RTable) (reads : Nat),
      idx + fs.length ≤ 3 →
      (∀ g ∈ fs, goodFile mapper g = true) →
      (runAux mapper fs idx acc reads).result.isOk = true := by
  intro fs
  induction fs with
  | nil =>
    intro idx acc reads _ _
    rfl
  | cons g rest ih =>
    intro idx acc reads hlen hg
    have hidx : idx ≤ 2 := by
      simp only [List.length_cons] at hlen
      omega
    obtain ⟨rws, hpf⟩ := processFile_of_goodFile mapper g (hg g (by simp))
    obtain ⟨nm, hnm⟩ : ∃ nm, custom_column_names.get? idx = some nm := by
      interval_cases idx <;> exact ⟨_, rfl⟩
    have e := hpf idx
    rw [hnm] at e
    rw [runAux, e]
    dsimp only
    exact ih (idx + 1) _ _
      (by simp only [List.length_cons] at hlen; omega)
      (fun g' hg' => hg g' (by simp [hg']))

/-- Claim C5, confirmed: each of the source's required-column checks
aborts the whole run with the ValueError of the source, which names the
offending file, no table being produced, regardless of how many earlier
files processed cleanly: a period file missing `url` or `sessions`
(after column normalization), a mapper file missing `cleaned_url`, and
a merge result missing `stream`; each message contains the missing
column name(s) and the offending file name; and when every file passes
all checks (at most three files), the run returns a table. -/
theorem c5_thm :
    (∀ (mapper f : XFile) (w : String) (pre post : List XFile),
        pre.length ≤ 3 →
        (∀ g ∈ pre, goodFile mapper g = true) →
        ¬ ((normalize_columns f.table).cols.contains "url" = true ∧
           (normalize_columns f.table).cols.contains "sessions" = true) →
        (process_and_aggregate_data (pre ++ f :: post) mapper w).result =
          Except.error (PErr.valueError (inputColsMsg f.name))) ∧
    (∀ (mapper f : XFile) (w : String) (pre post : List XFile) (d : Table),
        pre.length ≤ 3 →
        (∀ g ∈ pre, goodFile mapper g = true) →
        ((normalize_columns f.table).cols.contains "url" = true ∧
         (normalize_columns f.table).cols.contains "sessions" = true) →
        addCleanedUrl (normalize_columns f.table) = Except.ok d →
        ¬ (normalize_columns mapper.table).cols.contains "cleaned_url" = true →
        (process_and_aggregate_data (pre ++ f :: post) mapper w).result =
          Except.error (PErr.valueError (mapperColMsg mapper.name))) ∧
    (∀ (mapper f : XFile) (w : String) (pre post : List XFile) (d : Table),
        pre.length ≤ 3 →
        (∀ g ∈ pre, goodFile mapper g = true) →
        ((normalize_columns f.table).cols.contains "url" = true ∧
         (normalize_columns f.table).cols.contains "sessions" = true) →
        addCleanedUrl (normalize_columns f.table) = Except.ok d →
        (normalize_columns mapper.table).cols.contains "cleaned_url" = true →
        ¬ (mergeLeft d (normalize_columns mapper.table) "cleaned_url").cols.contains
            "stream" = true →
        (process_and_aggregate_data (pre ++ f :: post) mapper w).result =
          Except.error (PErr.valueError (streamColMsg f.name))) ∧
    (∀ nm : String,
        hasSub "url".data (inputColsMsg nm).data = true ∧
        hasSub "sessions".data (inputColsMsg nm).data = true ∧
        hasSub nm.data (inputColsMsg nm).data = true ∧
        hasSub "cleaned_url".data (mapperColMsg nm).data = true ∧
        hasSub nm.data (mapperColMsg nm).data = true ∧
        hasSub "stream".data (streamColMsg nm).data = true ∧
        hasSub nm.data (streamColMsg nm).data = true) ∧
    (∀ (mapper : XFile) (w : String) (files : List XFile),
        files.length ≤ 3 →
        (∀ g ∈ files, goodFile mapper g = true) →
        (process_and_aggregate_data files mapper w).result.isOk = true) := by
  refine ⟨?_, ?_, ?_, ?_, ?_⟩
  · intro mapper f w pre post hlen hg hs
    exact runAux_file_error mapper pre f post 0 _ _ _ (by omega) hg
      (fun j => by rw [processFile_inputCols_error mapper j f hs])
  · intro mapper f w pre post d hlen hg h1 hd h2
    exact runAux_file_error mapper pre f post 0 _ _ _ (by omega) hg
      (fun j => by rw [processFile_mapper_error mapper j f d h1 hd h2])
  · intro mapper f w pre post d hlen hg h1 hd h2 h3
    exact runAux_file_error mapper pre f post 0 _ _ _ (by omega) hg
      (fun j => by rw [processFile_stream_error mapper j f d h1 hd h2 h3])
  · intro nm
    obtain ⟨a1, a2, a3⟩ := inputColsMsg_contains nm
    obtain ⟨b1, b2⟩ := mapperColMsg_contains nm
    obtain ⟨c1, c2⟩ := streamColMsg_contains nm
    exact ⟨a1, a2, a3, b1, b2, c1, c2⟩
  · intro mapper w files hlen hg
    exact runAux_ok_of_good mapper files 0 _ _ (by omega) hg

/-- Witness for C5: one run per validation check, each aborting with the
ValueError naming the offending file — a period file lacking `sessions`,
a mapper lacking `cleaned_url`, a merge lacking `stream` — plus a clean
run returning a table. -/
theorem c5_witness :
    (process_and_aggregate_data [⟨"p1.xlsx", noSessionsInput⟩] ⟨"m.xlsx", abMapper⟩ "x").result =
      Except.error (PErr.valueError (inputColsMsg "p1.xlsx")) ∧
    (process_and_aggregate_data [⟨"p1", matchedInput⟩] ⟨"m", noKeyMapper⟩ "x").result =
      Except.error (PErr.valueError (mapperColMsg "m")) ∧
    (process_and_aggregate_data [⟨"p1", matchedInput⟩] ⟨"m", noStreamMapper⟩ "x").result =
      Except.error (PErr.valueError (streamColMsg "p1")) ∧
    hasSub "sessions".data (inputColsMsg "p1.xlsx").data = true ∧
    (process_and_aggregate_data [⟨"p1", matchedInput⟩] ⟨"m", abMapper⟩ "x").result.isOk = true := by
  refine ⟨?_, ?_, ?_, (c5_thm.2.2.2.1 "p1.xlsx").2.1, ?_⟩
  · have := c5_thm.1 ⟨"m.xlsx", abMapper⟩ ⟨"p1.xlsx", noSessionsInput⟩ "x" [] []
      (by decide) (by decide) (by decide)
    simpa using this
  · have := c5_thm.2.1 ⟨"m", noKeyMapper⟩ ⟨"p1", matchedInput⟩ "x" [] [] matchedCleaned
      (by decide) (by decide) (by decide) (by decide) (by decide)
    simpa using this
  · have := c5_thm.2.2.1 ⟨"m", noStreamMapper⟩ ⟨"p1", matchedInput⟩ "x" [] [] matchedCleaned
      (by decide) (by decide) (by decide) (by decide) (by decide) (by decide)
    simpa using this
  · exact c5_thm.2.2.2.2 ⟨"m", abMapper⟩ "x" [⟨"p1", matchedInput⟩] (by decide) (by decide)

lemma mem_sortKeys (k : Cell) (l : List Cell) : k ∈ sortKeys l ↔ k ∈ l := by
  unfold sortKeys
  rw [List.mem_insertionSort, List.mem_dedup]

lemma rIndex_mergeOuter (a b : RTable) (k : Cell) :
    k ∈ rIndex (mergeOuter a b) ↔ k ∈ rIndex a ∨ k ∈ rIndex b := by
  unfold mergeOuter rIndex
  dsimp only
  rw [List.map_map]
  have hcomp : (Prod.fst ∘ fun k : Cell => (k, rFind a k ++ rFind b k)) = id := rfl
  rw [hcomp, List.map_id, mem_sortKeys, List.mem_append]

lemma mergeOuter_rows_ne_nil (a b : RTable) (ha : a.rows ≠ []) :
    (mergeOuter a b).rows ≠ [] := by
  unfold mergeOuter
  dsimp only
  intro hnil
  rcases hrows : a.rows with _ | ⟨r0, rs⟩
  · exact ha hrows
  · have hmem : r0.1 ∈ sortKeys (rIndex a ++ rIndex b) := by
      rw [mem_sortKeys, List.mem_append]
      left
      rw [rIndex, hrows]
      exact List.mem_map_of_mem _ (by simp)
    rw [List.map_eq_nil_iff] at hnil
    rw [hnil] at hmem
    exact absurd hmem (List.not_mem_nil _)

lemma processFile_ok_shape (mapper : XFile) (idx : Nat) (f : XFile) (r : RTable)
    (h : (processFile mapper idx f).1 = Except.ok r) :
    ∃ nm rws, custom_column_names.get? idx = some nm ∧ r = { cols := [nm], rows := rws } := by
  unfold processFile at h
  dsimp only at h
  split at h
  · exact absurd h (by simp)
  · split at h
    · exact absurd h (by simp)
    · split at h
      · exact absurd h (by simp)
      · split at h
        · exact absurd h (by simp)
        · split at h
          · exact absurd h (by simp)
          · rename_i nm hnm
            have h2 := Except.ok.inj h
            exact ⟨nm, r.rows, hnm, by rw [← h2]⟩

lemma exShift (mapper f : XFile) (rest : List XFile) (idx : Nat) (k : Cell) :
    (∃ j f' a, (f :: rest).get? j = some f' ∧
        (processFile mapper (idx + j) f').1 = Except.ok a ∧ k ∈ rIndex a) ↔
      ((∃ a, (processFile mapper idx f).1 = Except.ok a ∧ k ∈ rIndex a) ∨
        (∃ j f' a, rest.get? j = some f' ∧
          (processFile mapper (idx + 1 + j) f').1 = Except.ok a ∧ k ∈ rIndex a)) := by
  constructor
  · rintro ⟨j, f', a, hj, ha, hka⟩
    cases j with
    | zero =>
      left
      have hf : f = f' := by simpa using hj
      subst hf
      rw [Nat.add_zero] at ha
      exact ⟨a, ha, hka⟩
    | succ j =>
      right
      refine ⟨j, f', a, by simpa using hj, ?_, hka⟩
      rw [show idx + 1 + j = idx + (j + 1) from by omega]
      exact ha
  · rintro (⟨a, ha, hka⟩ | ⟨j, f', a, hj, ha, hka⟩)
    · refine ⟨0, f, a, rfl, ?_, hka⟩
      rw [Nat.add_zero]
      exact ha
    · refine ⟨j + 1, f', a, by simpa using hj, ?_, hka⟩
      rw [show idx + (j + 1) = idx + 1 + j from by omega]
      exact ha

lemma runAux_keys (mapper : XFile) :
    ∀ (fs : List XFile) (idx : Nat) (acc : RTable) (reads : Nat) (t : RTable),
      (runAux mapper fs idx acc reads).result = Except.ok t →
      (acc.isEmpty = true → rIndex acc = []) →
      ∀ k, k ∈ rIndex t ↔ (k ∈ rIndex acc ∨ ∃ j f a, fs.get? j = some f ∧
        (processFile mapper (idx + j) f).1 = Except.ok a ∧ k ∈ rIndex a) := by
  intro fs
  induction fs with
  | nil =>
    intro idx acc reads t h _ k
    rw [runAux] at h
    dsimp only at h
    have ht := Except.ok.inj h
    subst ht
    constructor
    · exact fun hk => Or.inl hk
    · rintro (hk | ⟨j, f, a, hj, _, _⟩)
      · exact hk
      · simp at hj
  | cons f rest ih =>
    intro idx acc reads t h hacc k
    rcases hp : processFile mapper idx f with ⟨res, rd⟩
    cases res with
    | error e =>
      rw [runAux, hp] at h
      exact absurd h (by simp)
    | ok r =>
      rw [runAux, hp] at h
      dsimp only at h
      obtain ⟨nmr, rwsr, hnm, hr⟩ := processFile_ok_shape mapper idx f r (by rw [hp])
      have hex : (∃ a, (processFile mapper idx f).1 = Except.ok a ∧ k ∈ rIndex a) ↔
          k ∈ rIndex r := by
        constructor
        · rintro ⟨a, ha, hka⟩
          rw [hp] at ha
          have : r = a := Except.ok.inj ha
          rw [this]
          exact hka
        · intro hk
          exact ⟨r, by rw [hp], hk⟩
      by_cases he : acc.isEmpty = true
      · rw [if_pos he] at h
        have hr2 : r.isEmpty = true → rIndex r = [] := by
          intro hre
          rw [hr] at hre ⊢
          simp only [RTable.isEmpty, List.isEmpty_nil, Bool.or_eq_true] at hre
          rcases hre with hre | hre
          · rw [List.isEmpty_iff] at hre
            rw [rIndex, hre]
            rfl
          · simp at hre
        have hIH := ih (idx + 1) r (reads + rd) t h hr2 k
        rw [hIH, exShift mapper f rest idx k, hex, hacc he]
        simp only [List.not_mem_nil, false_or]
      · rw [if_neg he] at h
        have hm2 : (mergeOuter acc r).isEmpty = true → rIndex (mergeOuter acc r) = [] := by
          intro hme
          simp only [RTable.isEmpty, Bool.or_eq_true] at hme
          rcases hme with hme | hme
          · rw [List.isEmpty_iff] at hme
            rw [rIndex, hme]
            rfl
          · rw [List.isEmpty_iff] at hme
            unfold mergeOuter at hme
            dsimp only at hme
            rw [hr] at hme
            simp at hme
        have hIH := ih (idx + 1) (mergeOuter acc r) (reads + rd) t h hm2 k
        rw [hIH]
        rw [rIndex_mergeOuter]
        rw [exShift mapper f rest idx k]
        rw [hex]
        exact or_assoc

lemma runAux_ok_steps (mapper : XFile) :
    ∀ (fs : List XFile) (idx : Nat) (acc : RTable) (reads : Nat) (t : RTable),
      (runAux mapper fs idx acc reads).result = Except.ok t →
      ∀ j f, fs.get? j = some f → ∃ a, (processFile mapper (idx + j) f).1 = Except.ok a := by
  intro fs
  induction fs with
  | nil =>
    intro idx acc reads t _ j f hj
    simp at hj
  | cons g rest ih =>
    intro idx acc reads t h j f hj
    rcases hp : processFile mapper idx g with ⟨res, rd⟩
    cases res with
    | error e =>
      rw [runAux, hp] at h
      exact absurd h (by simp)
    | ok r =>
      rw [runAux, hp] at h
      dsimp only at h
      cases j with
      | zero =>
        have hf : g = f := by simpa using hj
        subst hf
        rw [Nat.add_zero, hp]
        exact ⟨r, rfl⟩
      | succ j =>
        rw [show idx + (j + 1) = idx + 1 + j from by omega]
        exact ih (idx + 1) _ (reads + rd) t h j f (by simpa using hj)

lemma runAux_cols (mapper : XFile) :
    ∀ (fs : List XFile) (idx : Nat) (acc : RTable) (reads : Nat) (t : RTable),
      (runAux mapper fs idx acc reads).result = Except.ok t →
      (∀ j f a, fs.get? j = some f → (processFile mapper (idx + j) f).1 = Except.ok a →
        a.rows ≠ []) →
      acc.rows ≠ [] → acc.cols ≠ [] →
      t.cols = acc.cols ++ ((List.range fs.length).map
        (fun j => (custom_column_names.get? (idx + j)).getD "")) := by
  intro fs
  induction fs with
  | nil =>
    intro idx acc reads t h _ _ _
    rw [runAux] at h
    dsimp only at h
    rw [← Except.ok.inj h]
    simp
  | cons f rest ih =>
    intro idx acc reads t h hne har hac
    rcases hp : processFile mapper idx f with ⟨res, rd⟩
    cases res with
    | error e =>
      rw [runAux, hp] at h
      exact absurd h (by simp)
    | ok r =>
      rw [runAux, hp] at h
      dsimp only at h
      obtain ⟨nmr, rwsr, hnm, hr⟩ := processFile_ok_shape mapper idx f r (by rw [hp])
      have he : acc.isEmpty = false := by
        rcases h1 : acc.rows with _ | ⟨x, xs⟩
        · exact absurd h1 har
        · rcases h2 : acc.cols with _ | ⟨y, ys⟩
          · exact absurd h2 hac
          · unfold RTable.isEmpty
            rw [h1, h2]
            rfl
      have hef : ¬ (acc.isEmpty = true) := by
        rw [he]
        exact Bool.false_ne_true
      rw [if_neg hef] at h
      have hIH := ih (idx + 1) (mergeOuter acc r) (reads + rd) t h
        (fun j g a hj ha => hne (j + 1) g a (by simpa using hj)
          (by rw [show idx + (j + 1) = idx + 1 + j from by omega]; exact ha))
        (mergeOuter_rows_ne_nil acc r har)
        (by
          unfold mergeOuter
          dsimp only
          intro hcols
          rw [hr] at hcols
          simp at hcols)
      rw [hIH]
      unfold mergeOuter
      dsimp only
      rw [hr]
      dsimp only
      simp only [List.length_cons]
      rw [List.append_assoc]
      congr 1
      rw [List.range_succ_eq_map, List.map_cons, List.map_map]
      simp only [List.singleton_append]
      congr 1
      · rw [Nat.add_zero, hnm]
        rfl
      · congr 1
        funext j
        simp only [Function.comp]
        rw [show idx + 1 + j = idx + (j + 1) from by omega]

/-- Claim C4, amended: on every successful run the final table's key set
equals the union of the key sets of the per-period aggregates; and when
every period's aggregate has at least one row, the table carries one
column per processed period, named by the fixed period labels in
processing order.  (When an early period's aggregate has no rows, the
accumulator stays pandas-empty and the next iteration replaces it,
dropping that period's column — see the counterexample.) -/
theorem c4_amended_thm (mapper : XFile) (w : String) (files : List XFile) (t : RTable)
    (h : (process_and_aggregate_data files mapper w).result = Except.ok t) :
    (∀ k, k ∈ rIndex t ↔ ∃ j f a, files.get? j = some f ∧
        (processFile mapper j f).1 = Except.ok a ∧ k ∈ rIndex a) ∧
    ((∀ j f a, files.get? j = some f → (processFile mapper j f).1 = Except.ok a →
        a.rows ≠ []) →
      t.cols = custom_column_names.take files.length) := by
  unfold process_and_aggregate_data at h
  constructor
  · intro k
    have hk := runAux_keys mapper files 0 { cols := [], rows := [] } 0 t h
      (fun _ => rfl) k
    rw [hk]
    simp only [rIndex, List.map_nil, List.not_mem_nil, false_or, Nat.zero_add]
  · intro hne
    have hlen : files.length ≤ 3 := by
      by_contra h4
      push_neg at h4
      have h3 : files.get? 3 ≠ none := by
        intro hc
        rw [List.get?_eq_none] at hc
        omega
      obtain ⟨f3, hf3⟩ := Option.ne_none_iff_exists'.1 h3
      obtain ⟨a3, ha3⟩ := runAux_ok_steps mapper files 0 { cols := [], rows := [] } 0 t h 3 f3 hf3
      obtain ⟨nm3, hw3, hnm3, hsh3⟩ := processFile_ok_shape mapper (0 + 3) f3 a3 ha3
      simp [custom_column_names] at hnm3
    rcases files with _ | ⟨f0, rest⟩
    · rw [runAux] at h
      dsimp only at h
      rw [← Except.ok.inj h]
      rfl
    · rcases hp : processFile mapper 0 f0 with ⟨res, rd⟩
      cases res with
      | error e =>
        rw [runAux, hp] at h
        exact absurd h (by simp)
      | ok r =>
        rw [runAux, hp] at h
        dsimp only at h
        have hemp : ({ cols := [], rows := [] } : RTable).isEmpty = true := rfl
        rw [if_pos hemp] at h
        obtain ⟨nm0, rws0, hnm0, hr0⟩ := processFile_ok_shape mapper 0 f0 r (by rw [hp])
        have hrr : r.rows ≠ [] := hne 0 f0 r rfl (by rw [hp])
        have hcols := runAux_cols mapper rest 1 r (0 + rd) t h
          (fun j g a hj ha => hne (j + 1) g a (by simpa using hj)
            (by rw [show (1 : Nat) + j = j + 1 from by omega] at ha; exact ha))
          hrr
          (by rw [hr0]; simp)
        rw [hcols, hr0]
        dsimp only
        have hn0 : nm0 = "This_week_2024_Total_session" := by
          have h0 := hnm0
          simp [custom_column_names] at h0
          exact h0.symm
        rw [hn0]
        have hn : rest.length = 0 ∨ rest.length = 1 ∨ rest.length = 2 := by
          simp only [List.length_cons] at hlen
          omega
        simp only [List.length_cons]
        rcases hn with hn | hn | hn
        · rw [hn]
          rfl
        · rw [hn]
          rfl
        · rw [hn]
          rfl

/-- Witness for C4's amended theorem at a concrete two-period run. -/
theorem c4_amended_witness :
    (Cell.str "A") ∈ rIndex twoRunResult ↔
      ∃ j f a, ([⟨"p1", matchedInput⟩, ⟨"p2", matchedInput⟩] : List XFile).get? j = some f ∧
        (processFile ⟨"m", abMapper⟩ j f).1 = Except.ok a ∧ (Cell.str "A") ∈ rIndex a :=
  (c4_amended_thm ⟨"m", abMapper⟩ "x" [⟨"p1", matchedInput⟩, ⟨"p2", matchedInput⟩]
    twoRunResult (by decide)).1 (Cell.str "A")

/-! Row-level lemmas for the merge/aggregate correctness proof (C2). -/

lemma rowGet_append (a b : Row) (c : String) :
    rowGet (a ++ b) c =
      match rowGet a c with
      | some v => some v
      | none => rowGet b c := by
  induction a with
  | nil => rfl
  | cons p r ih =>
    rcases p with ⟨c2, v⟩
    by_cases h : c2 = c
    · simp [rowGet, h]
    · simp [rowGet, h, ih]

lemma rowGet_setCell_self (r : Row) (k : String) (v : Cell) :
    rowGet (setCell r k v) k = some v := by
  induction r with
  | nil => simp [setCell, rowGet]
  | cons p r ih =>
    rcases p with ⟨c, w⟩
    by_cases h : c = k
    · simp [setCell, h, rowGet]
    · simp [setCell, h, rowGet, ih]

lemma rowGet_setCell_ne (r : Row) (k c : String) (v : Cell) (h : c ≠ k) :
    rowGet (setCell r k v) c = rowGet r c := by
  induction r with
  | nil => simp [setCell, rowGet, Ne.symm h]
  | cons p r ih =>
    rcases p with ⟨c2, w⟩
    by_cases h2 : c2 = k
    · subst h2
      simp [setCell, rowGet, Ne.symm h]
    · simp [setCell, h2, rowGet, ih]

lemma mem_rowKeys_setCell (r : Row) (k c : String) (v : Cell)
    (h : c ∈ rowKeys (setCell r k v)) : c ∈ rowKeys r ∨ c = k := by
  induction r with
  | nil =>
    simp [setCell, rowKeys] at h
    exact Or.inr h
  | cons p r ih =>
    rcases p with ⟨c2, w⟩
    by_cases h2 : c2 = k
    · subst h2
      simp [setCell, rowKeys] at h ⊢
      tauto
    · simp [setCell, h2, rowKeys] at h ⊢
      rcases h with h | h
      · tauto
      · rcases ih (by simpa [rowKeys] using h) with h3 | h3
        · exact Or.inl (Or.inr (by simpa [rowKeys] using h3))
        · exact Or.inr h3

lemma append2_ne (c : String) (a b : Char) (t : String)
    (h : t.data.reverse.take 2 ≠ [b, a]) : c ++ ⟨[a, b]⟩ ≠ t := by
  intro he
  apply h
  have h2 : (c ++ ⟨[a, b]⟩).data.reverse = t.data.reverse := by rw [he]
  rw [String.data_append, List.reverse_append] at h2
  have h3 : (⟨[a, b]⟩ : String).data.reverse = [b, a] := by simp
  rw [h3] at h2
  rw [← h2]
  rfl

lemma rowGet_renameL_eq (key c : String) (rcols : List String) (r : Row)
    (hid : renameLName key rcols c = c)
    (hx : ∀ c2 : String, c2 ++ "_x" ≠ c) :
    rowGet (renameLRow key rcols r) c = rowGet r c := by
  induction r with
  | nil => rfl
  | cons p rest ih =>
    rcases p with ⟨c2, v⟩
    by_cases h : c2 = c
    · subst h
      simp [renameLRow, rowGet, hid]
    · have hne : renameLName key rcols c2 ≠ c := by
        unfold renameLName
        split
        · exact hx c2
        · exact h
      simp [renameLRow, rowGet, hne, h] at ih ⊢
      exact ih

lemma rowGet_renameL_none (key c : String) (rcols : List String) (r : Row)
    (hm : c ∉ rowKeys r)
    (hx : ∀ c2 : String, c2 ++ "_x" ≠ c) :
    rowGet (renameLRow key rcols r) c = none := by
  induction r with
  | nil => rfl
  | cons p rest ih =>
    rcases p with ⟨c2, v⟩
    simp only [rowKeys, List.map_cons, List.mem_cons] at hm
    push_neg at hm
    have hne : renameLName key rcols c2 ≠ c := by
      unfold renameLName
      split
      · exact hx c2
      · exact fun hc => hm.1 hc.symm
    simp only [renameLRow, List.map_cons, rowGet, if_neg hne]
    exact ih (by simpa [rowKeys] using hm.2)

lemma rowGet_renameR_none (key c : String) (lcols : List String) (rr : Row)
    (hm : c ∉ rowKeys rr) (hy : ∀ c2 : String, c2 ++ "_y" ≠ c) :
    rowGet (renameRRow key lcols rr) c = none := by
  induction rr with
  | nil => rfl
  | cons p rest ih =>
    rcases p with ⟨c2, v⟩
    simp only [rowKeys, List.map_cons, List.mem_cons] at hm
    push_neg at hm
    have ih2 := ih (by simpa [rowKeys] using hm.2)
    by_cases hk : c2 = key
    · simp only [renameRRow, if_pos hk]
      exact ih2
    · have hne : renameRName lcols c2 ≠ c := by
        unfold renameRName
        split
        · exact hy c2
        · exact fun hc => hm.1 hc.symm
      simp only [renameRRow, if_neg hk, rowGet, if_neg hne]
      exact ih2

lemma rowGet_renameR_stream (key : String) (lcols : List String) (rr : Row)
    (hkey : key ≠ "stream") (hs : "stream" ∉ lcols) :
    rowGet (renameRRow key lcols rr) "stream" = rowGet rr "stream" := by
  induction rr with
  | nil => rfl
  | cons p rest ih =>
    rcases p with ⟨c2, v⟩
    by_cases hk : c2 = key
    · have hne : c2 ≠ "stream" := by
        rw [hk]
        exact hkey
      simp only [renameRRow, if_pos hk, rowGet, if_neg hne]
      exact ih
    · by_cases hst : c2 = "stream"
      · have hrn : renameRName lcols c2 = c2 := by
          unfold renameRName
          rw [if_neg]
          intro hmem
          rw [hst] at hmem
          exact hs (by simpa using hmem)
        simp only [renameRRow, if_neg hk, hrn, rowGet, if_pos hst]
      · have hne : renameRName lcols c2 ≠ "stream" := by
          unfold renameRName
          split
          · exact append2_ne c2 '_' 'y' "stream" (by decide)
          · exact hst
        simp only [renameRRow, if_neg hk, rowGet, if_neg hne, if_neg hst]
        exact ih

lemma rowGet_nullRight_ne (lcols rcols : List String) (key c : String)
    (hm : c ∉ rcols) (hy : ∀ c2 : String, c2 ++ "_y" ≠ c) :
    rowGet (nullRight lcols key rcols) c = none := by
  induction rcols with
  | nil => rfl
  | cons c2 rest ih =>
    simp only [List.mem_cons] at hm
    push_neg at hm
    have ih2 := ih hm.2
    by_cases hk : c2 = key
    · simp only [nullRight, if_pos hk]
      exact ih2
    · have hne : renameRName lcols c2 ≠ c := by
        unfold renameRName
        split
        · exact hy c2
        · exact fun hc => hm.1 hc.symm
      simp only [nullRight, if_neg hk, rowGet, if_neg hne]
      exact ih2

lemma rowGet_nullRight_null (lcols rcols : List String) (key c : String) :
    rowGet (nullRight lcols key rcols) c = none ∨
      rowGet (nullRight lcols key rcols) c = some Cell.null := by
  induction rcols with
  | nil => exact Or.inl rfl
  | cons c2 rest ih =>
    by_cases hk : c2 = key
    · simpa only [nullRight, if_pos hk] using ih
    · by_cases hne : renameRName lcols c2 = c
      · right
        simp only [nullRight, if_neg hk, rowGet, if_pos hne]
      · simpa only [nullRight, if_neg hk, rowGet, if_neg hne] using ih

lemma cleanCellE_ok_str (x : Option Cell) (c : Cell) (h : cleanCellE x = Except.ok c) :
    ∃ s, c = Cell.str s := by
  unfold cleanCellE at h
  split at h
  · split at h
    · rename_i t ht
      exact ⟨t, (Except.ok.inj h).symm⟩
    · exact Except.noConfusion h
  · exact Except.noConfusion h

lemma cleanKeyOf_str (r : Row) (h : (cleanCellE (rowGet r "url")).isOk = true) :
    ∃ s, cleanKeyOf r = Cell.str s := by
  unfold cleanKeyOf
  rcases hc : cleanCellE (rowGet r "url") with e | c
  · rw [hc] at h
    exact absurd h (by simp [Except.isOk, Except.toBool])
  · obtain ⟨s, hs⟩ := cleanCellE_ok_str _ _ hc
    exact ⟨s, hs⟩

lemma keyMatch_true_iff (a b : Cell) : keyMatch a b = true ↔ (a ≠ Cell.null ∧ a = b) := by
  unfold keyMatch
  simp [Bool.and_eq_true]

lemma filter_keyMatch_unique (k : Cell) (hk : k ≠ Cell.null) :
    ∀ rows : List Row,
      ((rows.map (fun rr => (rowGet rr "cleaned_url").getD Cell.null)).filter
        (fun x => !(x == Cell.null))).Nodup →
      rows.filter (fun rr => keyMatch ((rowGet rr "cleaned_url").getD Cell.null) k) =
        (match rows.find? (fun rr =>
            keyMatch ((rowGet rr "cleaned_url").getD Cell.null) k) with
         | some rr => [rr]
         | none => []) := by
  intro rows
  induction rows with
  | nil => intro _; rfl
  | cons rr rest ih =>
    intro hu
    rw [List.map_cons] at hu
    by_cases hm : keyMatch ((rowGet rr "cleaned_url").getD Cell.null) k = true
    · obtain ⟨hnn, heq⟩ := (keyMatch_true_iff _ _).1 hm
      have hq : (!((rowGet rr "cleaned_url").getD Cell.null == Cell.null)) = true := by
        simpa using hnn
      have hu2 : ((rowGet rr "cleaned_url").getD Cell.null ∉
            ((rest.map (fun rr2 => (rowGet rr2 "cleaned_url").getD Cell.null)).filter
              (fun x => !(x == Cell.null)))) ∧
          ((rest.map (fun rr2 => (rowGet rr2 "cleaned_url").getD Cell.null)).filter
            (fun x => !(x == Cell.null))).Nodup := by
        rw [List.filter_cons] at hu
        simp only [hq, if_true] at hu
        exact List.nodup_cons.1 hu
      have hrest : rest.filter (fun rr2 =>
          keyMatch ((rowGet rr2 "cleaned_url").getD Cell.null) k) = [] := by
        rw [List.filter_eq_nil_iff]
        intro rr2 hmem hm3
        obtain ⟨hnn2, heq2⟩ := (keyMatch_true_iff _ _).1 (by simpa using hm3)
        apply hu2.1
        rw [List.mem_filter]
        constructor
        · rw [heq, ← heq2]
          exact List.mem_map_of_mem _ hmem
        · simpa [heq2, heq] using hnn2
      rw [List.filter_cons, List.find?]
      simp only [hm, if_true, hrest]
    · have hmf : keyMatch ((rowGet rr "cleaned_url").getD Cell.null) k = false := by
        simpa using hm
      have hu2 : ((rest.map (fun rr2 => (rowGet rr2 "cleaned_url").getD Cell.null)).filter
          (fun x => !(x == Cell.null))).Nodup := by
        rw [List.filter_cons] at hu
        by_cases hnn : (rowGet rr "cleaned_url").getD Cell.null = Cell.null
        · simpa only [hnn, show (!(Cell.null == Cell.null)) = false from rfl,
            if_false] using hu
        · have hq : (!((rowGet rr "cleaned_url").getD Cell.null == Cell.null)) = true := by
            simpa using hnn
          simp only [hq, if_true] at hu
          exact (List.nodup_cons.1 hu).2
      rw [List.filter_cons, List.find?]
      simp only [hmf, if_false]
      exact ih hu2

lemma stream_none_left (rcols : List String) (r : Row) (k : Cell)
    (hA : "stream" ∉ rowKeys r) :
    rowGet (renameLRow "cleaned_url" rcols (setCell r "cleaned_url" k)) "stream" = none := by
  apply rowGet_renameL_none
  · intro hmem
    rcases mem_rowKeys_setCell _ _ _ _ hmem with h | h
    · exact hA h
    · exact absurd h (by decide)
  · exact fun c2 => append2_ne c2 '_' 'x' "stream" (by decide)

lemma sessions_left (rcols : List String) (r : Row) (k : Cell)
    (h2 : "sessions" ∉ rcols) :
    rowGet (renameLRow "cleaned_url" rcols (setCell r "cleaned_url" k)) "sessions" =
      rowGet r "sessions" := by
  have h3 := rowGet_renameL_eq "cleaned_url" "sessions" rcols
    (setCell r "cleaned_url" k) ?hid ?hx
  case hid =>
    unfold renameLName
    rw [if_neg]
    intro hc
    rw [Bool.and_eq_true] at hc
    have := hc.2
    rw [show ∀ l : List String, l.contains "sessions" = List.elem "sessions" l from
      fun l => rfl] at this
    exact h2 (List.elem_iff.1 this)
  case hx => exact fun c2 => append2_ne c2 '_' 'x' "sessions" (by decide)
  rw [h3]
  exact rowGet_setCell_ne r _ _ k (by decide)

lemma sumFor_append_rows (lcols : List String) (rows1 rows2 : List Row) (df2 : Table)
    (key : String) (ℓ : Cell) :
    sumFor (mergeLeft { cols := lcols, rows := rows1 ++ rows2 } df2 key) ℓ =
      sumFor (mergeLeft { cols := lcols, rows := rows1 } df2 key) ℓ +
        sumFor (mergeLeft { cols := lcols, rows := rows2 } df2 key) ℓ := by
  unfold sumFor mergeLeft
  dsimp only
  rw [List.flatMap_append, List.filter_append, List.map_append, List.sum_append]

lemma sumFor_single_row (df2 : Table) (lcols : List String) (r : Row) (ℓ : Cell)
    (hU : (cleanCellE (rowGet r "url")).isOk = true)
    (hA : "stream" ∉ rowKeys r)
    (h1 : "stream" ∉ lcols)
    (h2 : "sessions" ∉ df2.cols)
    (hB : ∀ rr ∈ df2.rows, "sessions" ∉ rowKeys rr)
    (hu : ((df2.rows.map (fun rr => (rowGet rr "cleaned_url").getD Cell.null)).filter
        (fun x => !(x == Cell.null))).Nodup) :
    sumFor (mergeLeft { cols := lcols, rows := [setCell r "cleaned_url" (cleanKeyOf r)] } df2 "cleaned_url") ℓ =
      if mapLabel df2 (cleanKeyOf r) == some ℓ then sessOf r else 0 := by
  obtain ⟨s, hks⟩ := cleanKeyOf_str r hU
  have hknn : cleanKeyOf r ≠ Cell.null := by
    rw [hks]
    simp
  unfold sumFor mergeLeft
  dsimp only
  simp only [List.flatMap_cons, List.flatMap_nil, List.append_nil,
    rowGet_setCell_self, Option.getD_some]
  rw [filter_keyMatch_unique (cleanKeyOf r) hknn df2.rows hu]
  rcases hf : df2.rows.find? (fun rr =>
      keyMatch ((rowGet rr "cleaned_url").getD Cell.null) (cleanKeyOf r)) with _ | rr0
  · dsimp only
    have hml : mapLabel df2 (cleanKeyOf r) = none := by
      unfold mapLabel
      rw [if_neg hknn, hf]
    have hpk : pKey (renameLRow "cleaned_url" df2.cols (setCell r "cleaned_url" (cleanKeyOf r))
        ++ nullRight lcols "cleaned_url" df2.cols) = none := by
      unfold pKey
      rw [rowGet_append, stream_none_left df2.cols r (cleanKeyOf r) hA]
      rcases rowGet_nullRight_null lcols df2.cols "cleaned_url" "stream" with hn | hn <;>
        rw [hn]
    rw [hml]
    simp [List.filter_cons, hpk]
  · dsimp only
    have hrr0mem := List.mem_of_find?_eq_some hf
    have hml : mapLabel df2 (cleanKeyOf r) = pKey rr0 := by
      unfold mapLabel
      rw [if_neg hknn, hf]
    have hpk : pKey (renameLRow "cleaned_url" df2.cols (setCell r "cleaned_url" (cleanKeyOf r))
        ++ renameRRow "cleaned_url" lcols rr0) = pKey rr0 := by
      unfold pKey
      rw [rowGet_append, stream_none_left df2.cols r (cleanKeyOf r) hA,
        rowGet_renameR_stream "cleaned_url" lcols rr0 (by decide) h1]
    have hsess : sessOf (renameLRow "cleaned_url" df2.cols
        (setCell r "cleaned_url" (cleanKeyOf r)) ++ renameRRow "cleaned_url" lcols rr0) =
        sessOf r := by
      unfold sessOf
      rw [rowGet_append, sessions_left df2.cols r (cleanKeyOf r) h2]
      cases hrs : rowGet r "sessions" with
      | some v => rfl
      | none =>
        rw [rowGet_renameR_none "cleaned_url" "sessions" lcols rr0 (hB rr0 hrr0mem)
          (fun c2 => append2_ne c2 '_' 'y' "sessions" (by decide))]
    rw [hml]
    by_cases hc : (pKey rr0 == some ℓ) = true
    · simp [List.filter_cons, hpk, hc, hsess]
    · simp [List.filter_cons, hpk, hc]

lemma sumFor_mergeLeft_rows (df2 : Table) (lcols : List String) (ℓ : Cell)
    (h1 : "stream" ∉ lcols)
    (h2 : "sessions" ∉ df2.cols)
    (hB : ∀ rr ∈ df2.rows, "sessions" ∉ rowKeys rr)
    (hu : ((df2.rows.map (fun rr => (rowGet rr "cleaned_url").getD Cell.null)).filter
        (fun x => !(x == Cell.null))).Nodup) :
    ∀ rows1 : List Row,
      (∀ r ∈ rows1, (cleanCellE (rowGet r "url")).isOk = true) →
      (∀ r ∈ rows1, "stream" ∉ rowKeys r) →
      sumFor (mergeLeft { cols := lcols, rows := rows1.map (fun r => setCell r "cleaned_url" (cleanKeyOf r)) } df2 "cleaned_url") ℓ =
      ((rows1.filter (fun r => mapLabel df2 (cleanKeyOf r) == some ℓ)).map sessOf).sum := by
  intro rows1
  induction rows1 with
  | nil =>
    intro _ _
    rfl
  | cons r rest ih =>
    intro hU hA
    rw [List.map_cons]
    rw [show setCell r "cleaned_url" (cleanKeyOf r) ::
        rest.map (fun r2 => setCell r2 "cleaned_url" (cleanKeyOf r2)) =
        [setCell r "cleaned_url" (cleanKeyOf r)] ++
        rest.map (fun r2 => setCell r2 "cleaned_url" (cleanKeyOf r2)) from rfl]
    rw [sumFor_append_rows]
    rw [sumFor_single_row df2 lcols r ℓ (hU r (by simp)) (hA r (by simp)) h1 h2 hB hu]
    rw [ih (fun r2 hm => hU r2 (by simp [hm])) (fun r2 hm => hA r2 (by simp [hm]))]
    rw [List.filter_cons]
    by_cases hc : (mapLabel df2 (cleanKeyOf r) == some ℓ) = true
    · simp [hc]
    · simp [hc]

lemma mapM_clean_chr :
    ∀ (rows : List Row) (out : List Row),
      rows.mapM (fun r => do
        let c ← cleanCellE (rowGet r "url")
        pure (setCell r "cleaned_url" c)) = Except.ok out →
      out = rows.map (fun r => setCell r "cleaned_url" (cleanKeyOf r)) ∧
      ∀ r ∈ rows, (cleanCellE (rowGet r "url")).isOk = true := by
  intro rows
  induction rows with
  | nil =>
    intro out h
    rw [List.mapM_nil] at h
    refine ⟨(Except.ok.inj h).symm, by simp⟩
  | cons r rest ih =>
    intro out h
    rw [List.mapM_cons] at h
    rcases hc : cleanCellE (rowGet r "url") with e | c
    · rw [hc] at h
      simp [Bind.bind, Except.bind] at h
    · rw [hc] at h
      rcases hm2 : rest.mapM (fun r2 => do
          let c2 ← cleanCellE (rowGet r2 "url")
          pure (setCell r2 "cleaned_url" c2)) with e2 | bs
      · rw [hm2] at h
        simp [Bind.bind, Except.bind, pure, Except.pure] at h
      · rw [hm2] at h
        simp only [Bind.bind, Except.bind, pure, Except.pure] at h
        obtain ⟨hbs, hall⟩ := ih bs hm2
        have hkey : cleanKeyOf r = c := by
          unfold cleanKeyOf
          rw [hc]
        constructor
        · rw [List.map_cons, hkey, ← hbs]
          exact (Except.ok.inj h).symm
        · intro r2 hr2
          rcases List.mem_cons.1 hr2 with hr2 | hr2
          · rw [hr2, hc]
            rfl
          · exact hall r2 hr2

lemma addCleanedUrl_ok (t d : Table) (hd : addCleanedUrl t = Except.ok d) :
    d.cols = setColName t.cols "cleaned_url" ∧
    d.rows = t.rows.map (fun r => setCell r "cleaned_url" (cleanKeyOf r)) ∧
    ∀ r ∈ t.rows, (cleanCellE (rowGet r "url")).isOk = true := by
  unfold addCleanedUrl at hd
  rcases hm : t.rows.mapM (fun r => do
      let c ← cleanCellE (rowGet r "url")
      pure (setCell r "cleaned_url" c)) with e | out
  · rw [hm] at hd
    simp [Bind.bind, Except.bind] at hd
  · rw [hm] at hd
    simp only [Bind.bind, Except.bind, pure, Except.pure] at hd
    obtain ⟨hout, hall⟩ := mapM_clean_chr t.rows out hm
    have hd2 := Except.ok.inj hd
    rw [← hd2]
    exact ⟨rfl, hout, hall⟩

/-- Claim C2, confirmed: for every session table and mapper table (well
formed as in the data model: the session table carries no `stream`
column and string urls, the mapper no `sessions` column, and the
mapper's non-null `cleaned_url` keys are unique), every value the
aggregation reports for a label equals the exact sum of `sessions` over
the session rows whose computed `cleaned_url` the mapper maps to that
label. -/
theorem c2_thm (df1 df2 d : Table)
    (hd : addCleanedUrl df1 = Except.ok d)
    (h1 : "stream" ∉ df1.cols)
    (hA : ∀ r ∈ df1.rows, "stream" ∉ rowKeys r)
    (h2 : "sessions" ∉ df2.cols)
    (hB : ∀ rr ∈ df2.rows, "sessions" ∉ rowKeys rr)
    (hu : ((df2.rows.map (fun rr => (rowGet rr "cleaned_url").getD Cell.null)).filter
        (fun x => !(x == Cell.null))).Nodup)
    (ℓ : Cell) (vs : List Cell)
    (hmem : (ℓ, vs) ∈ (pivot_table (mergeLeft d df2 "cleaned_url")).rows) :
    vs = [Cell.num (((df1.rows.filter
        (fun r => mapLabel df2 (cleanKeyOf r) == some ℓ)).map sessOf).sum)] := by
  obtain ⟨hcols, hrows, hUall⟩ := addCleanedUrl_ok df1 d hd
  unfold pivot_table at hmem
  dsimp only at hmem
  rcases List.mem_map.1 hmem with ⟨k, hk, hpair⟩
  have hℓ : k = ℓ := congrArg Prod.fst hpair
  have hvs : vs = [Cell.num (sumFor (mergeLeft d df2 "cleaned_url") k)] :=
    (congrArg Prod.snd hpair).symm
  rw [hvs, hℓ]
  have hd2 : d = { cols := setColName df1.cols "cleaned_url", rows := df1.rows.map (fun r => setCell r "cleaned_url" (cleanKeyOf r)) } := by
    rcases d with ⟨dc, dr⟩
    dsimp only at hcols hrows
    rw [hcols, hrows]
  have h1s : "stream" ∉ setColName df1.cols "cleaned_url" := by
    intro hm
    unfold setColName at hm
    split at hm
    · exact h1 hm
    · rcases List.mem_append.1 hm with hm | hm
      · exact h1 hm
      · simp at hm
  rw [hd2, sumFor_mergeLeft_rows df2 _ ℓ h1s h2 hB hu df1.rows hUall hA]

/-- Witness for C2 at the concrete session table `aInput` and mapper
`abMapper`: the reported value for label `A` is 5, the sum over the rows
mapping to `A`. -/
theorem c2_witness :
    addCleanedUrl aInput = Except.ok aCleaned ∧
    (Cell.str "A", [Cell.num 5]) ∈
      (pivot_table (mergeLeft aCleaned abMapper "cleaned_url")).rows ∧
    [Cell.num 5] = [Cell.num (((aInput.rows.filter
        (fun r => mapLabel abMapper (cleanKeyOf r) == some (Cell.str "A"))).map
        sessOf).sum)] :=
  ⟨by decide, by decide,
   c2_thm aInput abMapper aCleaned (by decide) (by decide) (by decide) (by decide)
     (by decide) (by decide) (Cell.str "A") [Cell.num 5] (by decide)⟩

/-! Lemmas for C7: a second `clean_url` pass is the identity when the
first pass's output carries no marker and no scheme-like colon. -/

lemma bnot_true {b : Bool} (h : ¬ b = true) : b = false := by
  cases b
  · rfl
  · exact absurd rfl h

lemma orFalse (a b : Bool) (h : (a || b) = false) : a = false ∧ b = false := by
  cases a <;> cases b <;> simp_all

lemma hasCh_beforeChar_self (ch : Char) (l : List Char) :
    hasCh ch (beforeChar ch l) = false := by
  induction l with
  | nil => rfl
  | cons c cs ih =>
    rw [beforeChar]
    by_cases hc : c = ch
    · rw [if_pos hc]
      rfl
    · rw [if_neg hc, hasCh, ih]
      simp [hc]

lemma hasCh_beforeChar_false (c ch : Char) (l : List Char) (h : hasCh c l = false) :
    hasCh c (beforeChar ch l) = false := by
  induction l with
  | nil => rfl
  | cons a as ih =>
    rw [hasCh] at h
    have h2 := orFalse _ _ h
    rw [beforeChar]
    by_cases ha : a = ch
    · rw [if_pos ha]
      rfl
    · rw [if_neg ha, hasCh, h2.1, ih h2.2]
      rfl

lemma hasCh_afterLastSlash_false (c : Char) (l : List Char) (h : hasCh c l = false) :
    hasCh c (afterLastSlash l) = false := by
  induction l with
  | nil => rfl
  | cons a as ih =>
    rw [hasCh] at h
    have h2 := orFalse _ _ h
    rw [afterLastSlash]
    by_cases h1 : hasCh '/' as = true
    · rw [if_pos h1]
      exact ih h2.2
    · rw [if_neg h1]
      by_cases ha : a = '/'
      · rw [if_pos ha]
        exact h2.2
      · rw [if_neg ha, hasCh, h2.1, h2.2]
        rfl

lemma afterLastSlash_noSlash (l : List Char) (h : hasCh '/' l = false) :
    afterLastSlash l = l := by
  cases l with
  | nil => rfl
  | cons a as =>
    rw [hasCh] at h
    have h2 := orFalse _ _ h
    rw [afterLastSlash, if_neg (by rw [h2.2]; exact Bool.false_ne_true),
      if_neg (of_decide_eq_false h2.1)]

lemma afterLastSlash_lstrip (l : List Char) :
    afterLastSlash (lstripSlashes l) = afterLastSlash l := by
  induction l with
  | nil => rfl
  | cons a as ih =>
    rw [lstripSlashes]
    by_cases ha : a = '/'
    · rw [if_pos ha, ih, afterLastSlash]
      by_cases h1 : hasCh '/' as = true
      · rw [if_pos h1]
      · rw [if_neg h1, if_pos ha, afterLastSlash_noSlash as (bnot_true h1)]
    · rw [if_neg ha]

lemma hasCh_slash_splitparams (l : List Char) :
    hasCh '/' (splitparams l) = hasCh '/' l := by
  induction l with
  | nil => rfl
  | cons a as ih =>
    rw [splitparams]
    by_cases h1 : hasCh '/' as = true
    · rw [if_pos h1, hasCh, hasCh, ih]
    · rw [if_neg h1]
      by_cases ha : a = '/'
      · rw [if_pos ha, hasCh, hasCh]
        simp [ha]
      · have h1f : hasCh '/' as = false := bnot_true h1
        have hfa : hasCh '/' (a :: as) = false := by
          rw [hasCh, h1f]
          simp [ha]
        rw [if_neg ha, hasCh_beforeChar_false '/' ';' (a :: as) hfa, hfa]

lemma semi_afterLastSlash_splitparams (l : List Char) :
    hasCh ';' (afterLastSlash (splitparams l)) = false := by
  induction l with
  | nil => rfl
  | cons a as ih =>
    rw [splitparams]
    by_cases h1 : hasCh '/' as = true
    · rw [if_pos h1, afterLastSlash,
        if_pos (show hasCh '/' (splitparams as) = true by rw [hasCh_slash_splitparams as]; exact h1)]
      exact ih
    · have h1f : hasCh '/' as = false := bnot_true h1
      rw [if_neg h1]
      by_cases ha : a = '/'
      · have hb : hasCh '/' (beforeChar ';' as) = false :=
          hasCh_beforeChar_false '/' ';' as h1f
        rw [if_pos ha, afterLastSlash, if_neg (by rw [hb]; exact Bool.false_ne_true),
          if_pos ha]
        exact hasCh_beforeChar_self ';' as
      · have hfa : hasCh '/' (a :: as) = false := by
          rw [hasCh, h1f]
          simp [ha]
        have hb : hasCh '/' (beforeChar ';' (a :: as)) = false :=
          hasCh_beforeChar_false '/' ';' (a :: as) hfa
        rw [if_neg ha, afterLastSlash_noSlash _ hb]
        exact hasCh_beforeChar_self ';' (a :: as)

end CollegeDekho
